import Mathlib

/-!
Verification development for the Catch-The-PacMan game (Go sources under
internal/model and internal/game).  The Go code is shallowly embedded:
structs become Lean structures, methods become pure functions returning the
updated value, float64 is modelled by the rationals, Go int by Int, and
injected callbacks / their results become explicit parameters.  Mutexes,
logging, audio and the wall-clock animation state (animFrame, lastAnimTime,
animInterval) are omitted: no claim is about them and they do not feed back
into the simulation state.
-/

namespace PacGame

/-- Embeds model.Score (score.go): player name and score, lower is better. -/
structure Score where
  Name : String
  Score : Int
  deriving DecidableEq, Repr

/-- Embeds the constant model.MaxHighScores = 10. -/
def MaxHighScores : Nat := 10

/-- One step of Go's insertion sort: inserts `x` into a (sorted) list,
placing it after every element whose score is ≤ `x`'s, i.e. before the
first element with a strictly greater score — exactly where Go's
`insertionSort` (which moves an element left only while `Less`, a strict
comparison, holds) leaves a newly inserted element. -/
def orderedInsertLt (x : Score) : List Score → List Score
  | [] => [x]
  | y :: ys => if x.Score < y.Score then x :: y :: ys else y :: orderedInsertLt x ys

/-- Embeds `sort.Sort(ByScore(s))` as it behaves on every slice this program
sorts: AddScore only ever sorts slices of length at most 11 (capacity 10 plus
one appended candidate), and for slices of fewer than 13 elements Go's
`sort.Sort` (pdqsort) runs plain insertion sort, processing elements left to
right and inserting each into the sorted prefix without moving it past equal
elements.  `sortScores` reproduces that algorithm on lists. -/
def sortScores (l : List Score) : List Score :=
  l.foldl (fun acc x => orderedInsertLt x acc) []

/-- Embeds the `shouldAdd` computation at the top of model.AddScore: add when
the list is not full, otherwise only when the candidate's score is strictly
below the worst (maximum) score, read off the last element of a sorted copy.
The `none` branch is unreachable (the list is full, hence non-empty, there). -/
def shouldAddScore (scores : List Score) (newScore : Score) : Bool :=
  if scores.length < MaxHighScores then true
  else
    match (sortScores scores).getLast? with
    | some worst => decide (newScore.Score < worst.Score)
    | none => false

/-- Embeds model.AddScore (score.go lines 24–61): when `shouldAdd`, append the
candidate, sort ascending by score, trim to MaxHighScores when over capacity,
and report whether the candidate (by full value equality) is still present;
otherwise return the list unchanged with `false`. -/
def AddScore (scores : List Score) (newScore : Score) : List Score × Bool :=
  if shouldAddScore scores newScore then
    let scores1 := sortScores (scores ++ [newScore])
    let scores2 := if MaxHighScores < scores1.length then scores1.take MaxHighScores else scores1
    if newScore ∈ scores2 then (scores2, true) else (scores2, false)
  else
    (scores, false)

/-- The comparison `sort.Sort` establishes: ascending by score. -/
def scoreLE (a b : Score) : Prop := a.Score ≤ b.Score

instance : DecidableRel scoreLE := fun a b => inferInstanceAs (Decidable (a.Score ≤ b.Score))

/-- Embeds the constant DirHorizontal = 'H' (pacman.go). -/
def DirHorizontal : Char := 'H'

/-- Embeds the constant DirVertical = 'V' (pacman.go). -/
def DirVertical : Char := 'V'

/-- Embeds game.Pacman (pacman.go lines 16–36).  Positions, radius and speed
(float64 in Go) are modelled by rationals; the animation fields and the
per-entity mutex are omitted (see the file header). -/
structure Pacman where
  ID : Int
  Radius : Rat
  PosX : Rat
  PosY : Rat
  Speed : Rat
  Direction : Char
  SubDirection : Int
  IsStopped : Bool
  WaitTimeMs : Int
  Bounces : Int
  deriving DecidableEq, Repr

/-- Embeds Pacman.Update (pacman.go lines 64–114), minus the animation block:
returns the updated entity and the number of bounces in this step
(`p.Bounces - startBounces` in the Go code).  A stopped entity is returned
unchanged with 0. -/
def Pacman.Update (p : Pacman) (dt screenWidth screenHeight : Rat) : Pacman × Int :=
  if p.IsStopped then (p, 0)
  else
    let distance := p.Speed * dt
    let startBounces := p.Bounces
    let moved :=
      if p.Direction = DirHorizontal then
        let q := { p with PosX := p.PosX + distance * (p.SubDirection : Rat) }
        if q.PosX - q.Radius < 0 ∧ q.SubDirection = -1 then
          ({ q with PosX := q.Radius, SubDirection := q.SubDirection * -1 }, true)
        else if screenWidth < q.PosX + q.Radius ∧ q.SubDirection = 1 then
          ({ q with PosX := screenWidth - q.Radius, SubDirection := q.SubDirection * -1 }, true)
        else (q, false)
      else
        let q := { p with PosY := p.PosY + distance * (p.SubDirection : Rat) }
        if q.PosY - q.Radius < 0 ∧ q.SubDirection = -1 then
          ({ q with PosY := q.Radius, SubDirection := q.SubDirection * -1 }, true)
        else if screenHeight < q.PosY + q.Radius ∧ q.SubDirection = 1 then
          ({ q with PosY := screenHeight - q.Radius, SubDirection := q.SubDirection * -1 }, true)
        else (q, false)
    let p2 := if moved.2 then { moved.1 with Bounces := moved.1.Bounces + 1 } else moved.1
    (p2, p2.Bounces - startBounces)

/-- Embeds Pacman.Bounce (pacman.go lines 118–136): no-op returning false when
stopped; otherwise flip the direction sign, increment Bounces, and nudge the
position by 1.1 (the float literal, exactly 11/10 here) along the axis in the
new direction. -/
def Pacman.Bounce (p : Pacman) : Pacman × Bool :=
  if p.IsStopped then (p, false)
  else
    let p1 := { p with SubDirection := p.SubDirection * -1, Bounces := p.Bounces + 1 }
    let nudge : Rat := 11 / 10
    let p2 :=
      if p1.Direction = DirHorizontal then
        { p1 with PosX := p1.PosX + nudge * (p1.SubDirection : Rat) }
      else
        { p1 with PosY := p1.PosY + nudge * (p1.SubDirection : Rat) }
    (p2, true)

/-- Embeds Pacman.Stop (pacman.go lines 139–147): marks the entity stopped,
returning true exactly on the running → stopped transition. -/
def Pacman.Stop (p : Pacman) : Pacman × Bool :=
  if !p.IsStopped then ({ p with IsStopped := true }, true) else (p, false)

/-- Embeds game.GameState and its five constants (pacman.go, game part). -/
inductive GameState where
  | StateStarting
  | StatePlaying
  | StateGameOver
  | StateEnteringHighScore
  | StateHallOfFame
  deriving DecidableEq, Repr

export GameState (StateStarting StatePlaying StateGameOver StateEnteringHighScore StateHallOfFame)

/-- Embeds game.Game (pacman.go, game part).  The wall-clock fields
(lastUpdateTime, deltaTime), the audio manager and the reader/writer lock are
omitted; the frame's delta time becomes an explicit parameter of Update. -/
structure Game where
  Pacmans : List Pacman
  Level : Int
  TotalBounces : Int
  ScreenWidth : Rat
  ScreenHeight : Rat
  CurrentState : GameState
  HighScores : List Score
  highScorePath : String
  saveGamePath : String
  levelConfigPath : String
  playerNameInput : List Char
  isNewHighScore : Bool
  deriving Repr

/-- Embeds the body of the inner collision loop of Game.Update (pacman.go,
game part, lines 429–460) for a fixed pair (i, j): `x1 y1 r1` is the snapshot
of entity i taken before the inner loop started, entity j is read fresh from
the current list, and on a strict collision both entities bounce (Bounce
itself re-checks the stopped flag) and each successful bounce adds 1. -/
def collideStep (ps : List Pacman) (cnt : Int) (i j : Nat) (x1 y1 r1 : Rat) :
    List Pacman × Int :=
  match ps[j]? with
  | none => (ps, cnt)
  | some p2 =>
    if p2.IsStopped then (ps, cnt)
    else
      let dx := x1 - p2.PosX
      let dy := y1 - p2.PosY
      let distSq := dx * dx + dy * dy
      let radiiSum := r1 + p2.Radius
      if 0 < distSq ∧ distSq < radiiSum * radiiSum then
        match ps[i]? with
        | none => (ps, cnt)
        | some p1 =>
          let b1 := p1.Bounce
          let b2 := p2.Bounce
          ((ps.set i b1.1).set j b2.1,
            cnt + (if b1.2 then 1 else 0) + (if b2.2 then 1 else 0))
      else (ps, cnt)

/-- Embeds one iteration of the outer collision loop of Game.Update (lines
422–461): snapshot entity i, skip it when stopped, otherwise run the inner
loop over j = i+1 … numPacmans−1 against that snapshot. -/
def collideRow (n : Nat) (ps : List Pacman) (cnt : Int) (i : Nat) : List Pacman × Int :=
  match ps[i]? with
  | none => (ps, cnt)
  | some p1 =>
    if p1.IsStopped then (ps, cnt)
    else
      (List.range' (i + 1) (n - (i + 1))).foldl
        (fun st j => collideStep st.1 st.2 i j p1.PosX p1.PosY p1.Radius) (ps, cnt)

/-- Embeds the whole pairwise collision scan of Game.Update: all unordered
pairs i < j, in order, threading the (implicitly pointer-shared in Go)
entity list and the frame bounce counter. -/
def collisionPhase (ps : List Pacman) : List Pacman × Int :=
  let n := ps.length
  (List.range n).foldl (fun st i => collideRow n st.1 st.2 i) (ps, 0)

/-- Embeds Game.Update (pacman.go, game part, lines 389–480) with the frame's
delta time as a parameter: no-op outside Playing or with no level loaded;
otherwise move every entity accumulating edge bounces, record whether all are
stopped, run the collision scan, add the frame bounces to TotalBounces, and
when every entity is stopped go to GameOver — or, when a candidate score
{Name: "", Score: TotalBounces} would be retained by AddScore (checked
without storing its result list), to EnteringHighScore with a cleared name
buffer. -/
def Game.Update (g : Game) (dt : Rat) : Game :=
  if g.CurrentState ≠ StatePlaying then g
  else if g.Level < 0 then g
  else
    let stepped := g.Pacmans.map (fun p => p.Update dt g.ScreenWidth g.ScreenHeight)
    let ps1 := stepped.map Prod.fst
    let edgeBounces := stepped.foldl (fun acc pr => acc + pr.2) 0
    let allStopped := ps1.all (fun p => p.IsStopped)
    let scan := collisionPhase ps1
    let g1 := { g with
      Pacmans := scan.1,
      TotalBounces := g.TotalBounces + edgeBounces + scan.2 }
    if allStopped then
      let isNew := (AddScore g1.HighScores { Name := "", Score := g1.TotalBounces }).2
      if isNew then
        { g1 with CurrentState := StateEnteringHighScore, isNewHighScore := isNew,
                  playerNameInput := [] }
      else
        { g1 with CurrentState := StateGameOver, isNewHighScore := isNew }
    else g1

/-- Embeds Game.HandleTextInput (lines 505–516): ignored outside
EnteringHighScore; when the buffer currently holds fewer than 15 characters
the whole chunk `chars` is appended (the Go code guards only on the current
length, not on the resulting length). -/
def Game.HandleTextInput (g : Game) (chars : List Char) : Game :=
  if g.CurrentState ≠ StateEnteringHighScore then g
  else if g.playerNameInput.length < 15 then
    { g with playerNameInput := g.playerNameInput ++ chars }
  else g

/-- Embeds Game.HandleBackspace (lines 519–526), faithfully including its
condition `g.CurrentState != StateEnteringHighScore && len(...) > 0`: the
buffer is shortened only when the state is NOT EnteringHighScore. -/
def Game.HandleBackspace (g : Game) : Game :=
  if g.CurrentState ≠ StateEnteringHighScore ∧ 0 < g.playerNameInput.length then
    { g with playerNameInput := g.playerNameInput.dropLast }
  else g

/-- Embeds Game.HandleEnter (lines 529–562).  The injected writer `saveFunc`
is modelled by the second component: `some (scores, path)` records that the
writer was invoked with those arguments (the Go code ignores its error apart
from logging, so the writer's result does not appear in the state), `none`
that it was not invoked. -/
def Game.HandleEnter (g : Game) : Game × Option (List Score × String) :=
  if g.CurrentState ≠ StateEnteringHighScore then (g, none)
  else
    let entered := String.mk g.playerNameInput
    let playerName := if entered = "" then "Anonymous" else entered
    let res := AddScore g.HighScores { Name := playerName, Score := g.TotalBounces }
    let saveCall := if res.2 then some (res.1, g.highScorePath) else none
    ({ g with HighScores := res.1, CurrentState := StateHallOfFame, playerNameInput := [] },
      saveCall)

/-- Embeds Game.RequestLoadLevel (lines 274–318).  `loadResult` stands for the
value of the injected `loadFunc(configPath)`, and `hsLoad` for the configured
high-score loader: `none` when `loadHighScoresFunc` is nil, otherwise the
result of calling it on the recomputed high-score path.  On loader error the
receiver is returned untouched together with the wrapped error message; on
success every field is replaced and a failing (or missing) high-score load
yields an empty list without being an error. -/
def Game.RequestLoadLevel (g : Game) (configPath : String)
    (loadResult : Except String Game)
    (hsLoad : Option (Except String (List Score))) : Game × Except String Unit :=
  match loadResult with
  | .error e => (g, .error ("failed to load level config " ++ configPath ++ ": " ++ e))
  | .ok loaded =>
    let g1 := { g with
      Level := loaded.Level,
      Pacmans := loaded.Pacmans,
      TotalBounces := loaded.TotalBounces,
      CurrentState := StatePlaying,
      levelConfigPath := configPath,
      highScorePath := "assets/highscores/highscores_" ++ toString loaded.Level ++ ".gob",
      saveGamePath := "assets/saves/savegame_" ++ toString loaded.Level ++ ".txt",
      playerNameInput := [],
      isNewHighScore := false }
    let g2 :=
      match hsLoad with
      | some (.ok scores) => { g1 with HighScores := scores }
      | some (.error _) => { g1 with HighScores := [] }
      | none => { g1 with HighScores := [] }
    (g2, .ok ())

/-- Embeds Game.RequestLoadSavedGame (lines 321–361), analogous to
RequestLoadLevel but keeping the save path it loaded from and recomputing the
level-config path from the loaded level. -/
def Game.RequestLoadSavedGame (g : Game) (savePath : String)
    (loadResult : Except String Game)
    (hsLoad : Option (Except String (List Score))) : Game × Except String Unit :=
  match loadResult with
  | .error e => (g, .error ("failed to load saved game " ++ savePath ++ ": " ++ e))
  | .ok loaded =>
    let g1 := { g with
      Level := loaded.Level,
      Pacmans := loaded.Pacmans,
      TotalBounces := loaded.TotalBounces,
      CurrentState := StatePlaying,
      levelConfigPath := "assets/levels/level_" ++ toString loaded.Level ++ ".txt",
      highScorePath := "assets/highscores/highscores_" ++ toString loaded.Level ++ ".gob",
      saveGamePath := savePath,
      playerNameInput := [],
      isNewHighScore := false }
    let g2 :=
      match hsLoad with
      | some (.ok scores) => { g1 with HighScores := scores }
      | some (.error _) => { g1 with HighScores := [] }
      | none => { g1 with HighScores := [] }
    (g2, .ok ())

/-- Operations an entity can undergo over its lifetime, for the monotonicity
claims: a movement update, a forced collision bounce, or a click stop. -/
inductive PacOp where
  | update (dt screenWidth screenHeight : Rat)
  | bounce
  | stop
  deriving Repr

/-- Applies one operation to an entity, discarding the returned report. -/
def applyOp (p : Pacman) : PacOp → Pacman
  | .update dt w h => (p.Update dt w h).1
  | .bounce => p.Bounce.1
  | .stop => p.Stop.1

/-- Applies a sequence of operations in order. -/
def applyOps (p : Pacman) (ops : List PacOp) : Pacman :=
  ops.foldl applyOp p

/-! ### Concrete values used to instantiate the theorems -/

/-- A game value with neutral fields, the base for concrete scenarios. -/
def baseGame : Game :=
  { Pacmans := [], Level := 0, TotalBounces := 0, ScreenWidth := 640, ScreenHeight := 480,
    CurrentState := StateStarting, HighScores := [], highScorePath := "hs.gob",
    saveGamePath := "sv.txt", levelConfigPath := "lv.txt", playerNameInput := [],
    isNewHighScore := false }

/-- A running entity heading right, close to the right wall. -/
def exRunner : Pacman :=
  { ID := 1, Radius := 10, PosX := 620, PosY := 50, Speed := 60, Direction := DirHorizontal,
    SubDirection := 1, IsStopped := false, WaitTimeMs := 0, Bounces := 0 }

/-- A stopped entity. -/
def exStopped : Pacman :=
  { ID := 2, Radius := 10, PosX := 100, PosY := 100, Speed := 60, Direction := DirHorizontal,
    SubDirection := 1, IsStopped := true, WaitTimeMs := 0, Bounces := 3 }

/-- Ten score records all at score 0, a full board that any positive score fails. -/
def exZeroBoard : List Score :=
  [⟨"a", 0⟩, ⟨"b", 0⟩, ⟨"c", 0⟩, ⟨"d", 0⟩, ⟨"e", 0⟩,
   ⟨"f", 0⟩, ⟨"g", 0⟩, ⟨"h", 0⟩, ⟨"i", 0⟩, ⟨"j", 0⟩]

/-- A full board that is NOT sorted ascending (1 precedes 0). -/
def exUnsortedBoard : List Score :=
  [⟨"a", 1⟩, ⟨"b", 0⟩, ⟨"c", 2⟩, ⟨"d", 3⟩, ⟨"e", 4⟩,
   ⟨"f", 5⟩, ⟨"g", 6⟩, ⟨"h", 7⟩, ⟨"i", 8⟩, ⟨"j", 9⟩]

/-- A sorted board with three entries, used as a witness input. -/
def exSortedBoard : List Score := [⟨"a", 1⟩, ⟨"b", 3⟩, ⟨"c", 3⟩]

/-- A game sitting in the name-entry state with two characters typed. -/
def exEnteringGame : Game :=
  { baseGame with CurrentState := StateEnteringHighScore, playerNameInput := ['A', 'B'] }

/-- A game over screen that still holds two typed characters. -/
def exGameOverGame : Game :=
  { baseGame with CurrentState := StateGameOver, playerNameInput := ['A', 'B'] }

/-- A name-entry game whose full zero board the pending score 5 cannot enter. -/
def exHopelessGame : Game :=
  { baseGame with CurrentState := StateEnteringHighScore, playerNameInput := ['A'],
                  HighScores := exZeroBoard, TotalBounces := 5 }

/-- A name-entry game with an empty buffer and an empty board. -/
def exAnonymousGame : Game :=
  { baseGame with CurrentState := StateEnteringHighScore, playerNameInput := [],
                  TotalBounces := 2 }

/-- A playing game whose only entity is stopped. -/
def exFinishedGame : Game :=
  { baseGame with CurrentState := StatePlaying, Pacmans := [exStopped] }

/-- A name-entry game with an empty buffer, target of a 16-character paste. -/
def exEmptyEntryGame : Game :=
  { baseGame with CurrentState := StateEnteringHighScore }

/-- Sixteen characters arriving in one input chunk. -/
def exSixteenChars : List Char := List.replicate 16 'x'

/-! ### Lemmas about the sorting routine used by AddScore -/

theorem orderedInsertLt_perm (x : Score) (l : List Score) :
    List.Perm (orderedInsertLt x l) (x :: l) := by
  induction l with
  | nil => simp [orderedInsertLt]
  | cons y ys ih =>
    simp only [orderedInsertLt]
    split
    · exact List.Perm.refl _
    · exact (ih.cons y).trans (List.Perm.swap x y ys)

theorem orderedInsertLt_sorted (x : Score) (l : List Score)
    (h : l.Sorted scoreLE) : (orderedInsertLt x l).Sorted scoreLE := by
  induction l with
  | nil => simp [orderedInsertLt, List.Sorted]
  | cons y ys ih =>
    rw [List.sorted_cons] at h
    simp only [orderedInsertLt]
    split
    case isTrue hlt =>
      rw [List.sorted_cons]
      refine ⟨?_, List.sorted_cons.mpr h⟩
      intro b hb
      rcases List.mem_cons.mp hb with rfl | hb
      · exact le_of_lt hlt
      · exact le_trans (le_of_lt hlt) (h.1 b hb)
    case isFalse hge =>
      rw [List.sorted_cons]
      refine ⟨?_, ih h.2⟩
      intro b hb
      have hb' : b ∈ x :: ys := (orderedInsertLt_perm x ys).mem_iff.mp hb
      rcases List.mem_cons.mp hb' with rfl | hb'
      · exact le_of_not_lt hge
      · exact h.1 b hb'

theorem filter_eq_nil_of_all_gt (k : Int) (l : List Score)
    (hlo : ∀ b ∈ l, k < b.Score) :
    l.filter (fun s => decide (s.Score = k)) = [] := by
  rw [List.filter_eq_nil_iff]
  intro a ha
  have := hlo a ha
  simp only [decide_eq_true_eq]
  omega

theorem orderedInsertLt_filter_eq (x : Score) (l : List Score) (k : Int)
    (hs : l.Sorted scoreLE) (hx : x.Score = k) :
    (orderedInsertLt x l).filter (fun s => decide (s.Score = k)) =
      l.filter (fun s => decide (s.Score = k)) ++ [x] := by
  induction l with
  | nil => simp [orderedInsertLt, hx]
  | cons y ys ih =>
    rw [List.sorted_cons] at hs
    simp only [orderedInsertLt]
    split
    case isTrue hlt =>
      have hy : ¬ y.Score = k := by omega
      have hys : (ys.filter (fun s => decide (s.Score = k))) = [] := by
        apply filter_eq_nil_of_all_gt k ys
        intro b hb
        have := hs.1 b hb
        simp only [scoreLE] at this
        omega
      simp [List.filter_cons, hx, hy, hys]
    case isFalse hge =>
      rw [List.filter_cons, List.filter_cons, ih hs.2]
      split <;> simp

theorem orderedInsertLt_filter_ne (x : Score) (l : List Score) (k : Int)
    (hx : ¬ x.Score = k) :
    (orderedInsertLt x l).filter (fun s => decide (s.Score = k)) =
      l.filter (fun s => decide (s.Score = k)) := by
  induction l with
  | nil => simp [orderedInsertLt, hx]
  | cons y ys ih =>
    simp only [orderedInsertLt]
    split
    · simp [List.filter_cons, hx]
    · rw [List.filter_cons, List.filter_cons, ih]

theorem foldl_orderedInsertLt_perm (l acc : List Score) :
    List.Perm (l.foldl (fun a x => orderedInsertLt x a) acc) (acc ++ l) := by
  induction l generalizing acc with
  | nil => simp
  | cons x xs ih =>
    simp only [List.foldl_cons]
    refine (ih (orderedInsertLt x acc)).trans ?_
    refine (List.Perm.append_right xs (orderedInsertLt_perm x acc)).trans ?_
    exact List.perm_middle.symm

theorem foldl_orderedInsertLt_sorted (l acc : List Score)
    (h : acc.Sorted scoreLE) :
    (l.foldl (fun a x => orderedInsertLt x a) acc).Sorted scoreLE := by
  induction l generalizing acc with
  | nil => exact h
  | cons x xs ih => exact ih _ (orderedInsertLt_sorted x acc h)

theorem foldl_orderedInsertLt_filter (l acc : List Score) (k : Int)
    (h : acc.Sorted scoreLE) :
    (l.foldl (fun a x => orderedInsertLt x a) acc).filter (fun s => decide (s.Score = k)) =
      acc.filter (fun s => decide (s.Score = k)) ++ l.filter (fun s => decide (s.Score = k)) := by
  induction l generalizing acc with
  | nil => simp
  | cons x xs ih =>
    simp only [List.foldl_cons]
    rw [ih _ (orderedInsertLt_sorted x acc h)]
    by_cases hx : x.Score = k
    · rw [orderedInsertLt_filter_eq x acc k h hx, List.filter_cons]
      simp [hx, List.append_assoc]
    · rw [orderedInsertLt_filter_ne x acc k hx, List.filter_cons]
      simp [hx]

theorem sortScores_perm (l : List Score) : List.Perm (sortScores l) l := by
  simpa using foldl_orderedInsertLt_perm l []

theorem sortScores_sorted (l : List Score) : (sortScores l).Sorted scoreLE :=
  foldl_orderedInsertLt_sorted l [] (by simp [List.Sorted])

theorem sortScores_filter (l : List Score) (k : Int) :
    (sortScores l).filter (fun s => decide (s.Score = k)) =
      l.filter (fun s => decide (s.Score = k)) := by
  simpa using foldl_orderedInsertLt_filter l [] k (by simp [List.Sorted])

theorem mem_of_getLast_some (l : List Score) (w : Score)
    (hw : l.getLast? = some w) : w ∈ l := by
  obtain ⟨h, rfl⟩ := List.mem_getLast?_eq_getLast (Option.mem_def.mpr hw)
  exact List.getLast_mem h

theorem sorted_le_getLast (l : List Score) (w : Score)
    (hs : l.Sorted scoreLE) (hw : l.getLast? = some w) :
    ∀ b ∈ l, b.Score ≤ w.Score := by
  induction l with
  | nil => simp at hw
  | cons y ys ih =>
    rw [List.sorted_cons] at hs
    cases ys with
    | nil =>
      simp only [List.getLast?_singleton, Option.some.injEq] at hw
      subst hw
      simp
    | cons z zs =>
      rw [List.getLast?_cons_cons] at hw
      intro b hb
      rcases List.mem_cons.mp hb with rfl | hb
      · have hwmem : w ∈ z :: zs := mem_of_getLast_some _ w hw
        exact hs.1 w hwmem
      · exact ih hs.2 hw b hb

theorem sortScores_worst (l : List Score) (hne : l ≠ []) :
    ∃ w, (sortScores l).getLast? = some w ∧ w ∈ l ∧ ∀ s ∈ l, s.Score ≤ w.Score := by
  have hperm := sortScores_perm l
  have hlen : (sortScores l).length = l.length := hperm.length_eq
  have hne' : sortScores l ≠ [] := by
    intro h
    apply hne
    rw [← List.length_eq_zero, ← hlen, h, List.length_nil]
  obtain ⟨w, hw⟩ := Option.isSome_iff_exists.mp (List.getLast?_isSome.mpr hne')
  refine ⟨w, hw, hperm.mem_iff.mp (mem_of_getLast_some _ w hw), ?_⟩
  intro s hsl
  exact sorted_le_getLast _ w (sortScores_sorted l) hw s (hperm.mem_iff.mpr hsl)

/-! ### Lemmas about AddScore -/

theorem shouldAddScore_eq_any (l : List Score) (c : Score) :
    shouldAddScore l c =
      (decide (l.length < MaxHighScores) || l.any (fun s => decide (c.Score < s.Score))) := by
  unfold shouldAddScore
  by_cases hlen : l.length < MaxHighScores
  · simp [hlen]
  · have hne : l ≠ [] := by
      intro h
      subst h
      simp [MaxHighScores] at hlen
    obtain ⟨w, hw, hwmem, hwmax⟩ := sortScores_worst l hne
    rw [if_neg hlen, hw]
    by_cases hc : c.Score < w.Score
    · have hany : l.any (fun s => decide (c.Score < s.Score)) = true :=
        List.any_eq_true.mpr ⟨w, hwmem, by simpa using hc⟩
      simp [hc, hany]
    · have hany : l.any (fun s => decide (c.Score < s.Score)) = false := by
        rw [List.any_eq_false]
        intro s hs
        simp only [decide_eq_true_eq]
        have := hwmax s hs
        omega
      simp [hc, hany, hlen]

theorem addScore_snd (l : List Score) (c : Score) (h10 : l.length ≤ MaxHighScores) :
    (AddScore l c).2 = shouldAddScore l c := by
  unfold AddScore
  by_cases hadd : shouldAddScore l c = true
  case neg =>
    simp only [Bool.not_eq_true] at hadd
    simp [hadd]
  case pos =>
    simp only [hadd, if_true]
    have hperm := sortScores_perm (l ++ [c])
    have hlen1 : (sortScores (l ++ [c])).length = l.length + 1 := by
      rw [hperm.length_eq, List.length_append, List.length_singleton]
    have hcmem : c ∈ sortScores (l ++ [c]) :=
      hperm.mem_iff.mpr (List.mem_append.mpr (Or.inr (List.mem_singleton.mpr rfl)))
    by_cases hbig : MaxHighScores < (sortScores (l ++ [c])).length
    · -- the list was full: the sorted list has 11 entries and is trimmed to 10
      have hl10 : l.length = MaxHighScores := by omega
      have hlnotlt : ¬ l.length < MaxHighScores := by omega
      have hne : l ≠ [] := by
        intro h
        subst h
        simp [MaxHighScores] at hl10
      obtain ⟨w, hw, hwmem, hwmax⟩ := sortScores_worst l hne
      have hcw : c.Score < w.Score := by
        unfold shouldAddScore at hadd
        rw [if_neg hlnotlt, hw] at hadd
        simpa using hadd
      -- the dropped tail is a single element, the maximum of the sorted list
      have hdlen : ((sortScores (l ++ [c])).drop MaxHighScores).length = 1 := by
        rw [List.length_drop, hlen1, hl10]
        exact Nat.add_sub_cancel_left MaxHighScores 1
      obtain ⟨z, hz⟩ := List.length_eq_one.mp hdlen
      have hsplit : (sortScores (l ++ [c])).take MaxHighScores ++ [z] = sortScores (l ++ [c]) := by
        rw [← hz]
        exact List.take_append_drop _ _
      have hzlast : (sortScores (l ++ [c])).getLast? = some z := by
        rw [← hsplit]
        exact List.getLast?_concat _
      have hzmax : ∀ b ∈ sortScores (l ++ [c]), b.Score ≤ z.Score :=
        sorted_le_getLast _ z (sortScores_sorted _) hzlast
      have hwz : w.Score ≤ z.Score := by
        apply hzmax
        exact hperm.mem_iff.mpr (List.mem_append.mpr (Or.inl hwmem))
      have hcz : c ≠ z := by
        intro h
        subst h
        omega
      have hctake : c ∈ (sortScores (l ++ [c])).take MaxHighScores := by
        have := hcmem
        rw [← hsplit] at this
        rcases List.mem_append.mp this with h | h
        · exact h
        · exact absurd (List.mem_singleton.mp h) hcz
      simp [hbig, hctake, hadd]
    · -- no trimming: the candidate is in the sorted list
      simp [hbig, hcmem, hadd]

theorem addScore_fst (l : List Score) (c : Score) :
    (AddScore l c).1 =
      if shouldAddScore l c then
        (if MaxHighScores < (sortScores (l ++ [c])).length
         then (sortScores (l ++ [c])).take MaxHighScores
         else sortScores (l ++ [c]))
      else l := by
  unfold AddScore
  by_cases h : shouldAddScore l c = true
  · simp only [h, if_true]
    split
    · split <;> rfl
    · split <;> rfl
  · simp only [Bool.not_eq_true] at h
    simp [h]

theorem addScore_fst_sorted (l : List Score) (c : Score)
    (hsort : l.Sorted scoreLE) : (AddScore l c).1.Sorted scoreLE := by
  rw [addScore_fst]
  split
  · split
    · exact List.Pairwise.sublist (List.take_sublist _ _) (sortScores_sorted _)
    · exact sortScores_sorted _
  · exact hsort

theorem addScore_fst_length (l : List Score) (c : Score)
    (h10 : l.length ≤ MaxHighScores) : (AddScore l c).1.length ≤ MaxHighScores := by
  rw [addScore_fst]
  split
  · split
    case isTrue h => simp [List.length_take]
    case isFalse h => omega
  · exact h10

theorem shouldAddScore_false_of_full_weak (l : List Score) (c : Score)
    (hfull : l.length = MaxHighScores) (hweak : ∀ s ∈ l, s.Score ≤ c.Score) :
    shouldAddScore l c = false := by
  have hlnotlt : ¬ l.length < MaxHighScores := by omega
  have hne : l ≠ [] := by
    intro h
    subst h
    simp [MaxHighScores] at hfull
  obtain ⟨w, hw, hwmem, _⟩ := sortScores_worst l hne
  unfold shouldAddScore
  rw [if_neg hlnotlt, hw]
  have := hweak w hwmem
  simp only [decide_eq_false_iff_not]
  omega

theorem addScore_full_unchanged (l : List Score) (c : Score)
    (hfull : l.length = MaxHighScores) (hweak : ∀ s ∈ l, s.Score ≤ c.Score) :
    AddScore l c = (l, false) := by
  unfold AddScore
  rw [shouldAddScore_false_of_full_weak l c hfull hweak]
  simp

theorem addScore_retained_iff (l : List Score) (c : Score)
    (h10 : l.length ≤ MaxHighScores) :
    (AddScore l c).2 =
      (decide (l.length < MaxHighScores) || l.any (fun s => decide (c.Score < s.Score)))
    ∧ ∀ c' : Score, c'.Score = c.Score → (AddScore l c').2 = (AddScore l c).2 := by
  have h1 := (addScore_snd l c h10).trans (shouldAddScore_eq_any l c)
  refine ⟨h1, fun c' hc' => ?_⟩
  have h2 := (addScore_snd l c' h10).trans (shouldAddScore_eq_any l c')
  rw [h1, h2, hc']

/-! ### Lemmas about single entities -/

theorem pacman_update_of_stopped (p : Pacman) (dt w h : Rat)
    (hs : p.IsStopped = true) : p.Update dt w h = (p, 0) := by
  unfold Pacman.Update
  rw [if_pos hs]

theorem pacman_update_isStopped (p : Pacman) (dt w h : Rat) :
    ((p.Update dt w h).1).IsStopped = p.IsStopped := by
  unfold Pacman.Update
  cases hs : p.IsStopped with
  | true => rw [if_pos rfl]; exact hs
  | false =>
    rw [if_neg (by simp)]
    dsimp only
    split_ifs <;> rfl

theorem pacman_update_bounces_le (p : Pacman) (dt w h : Rat) :
    p.Bounces ≤ ((p.Update dt w h).1).Bounces := by
  unfold Pacman.Update
  cases hs : p.IsStopped with
  | true => rw [if_pos rfl]
  | false =>
    rw [if_neg (by simp)]
    dsimp only
    split_ifs <;> simp

theorem pacman_bounce_isStopped (p : Pacman) :
    (p.Bounce.1).IsStopped = p.IsStopped := by
  unfold Pacman.Bounce
  cases hs : p.IsStopped with
  | true => rw [if_pos rfl]; exact hs
  | false =>
    rw [if_neg (by simp)]
    dsimp only
    split_ifs <;> rfl

theorem pacman_bounce_bounces_le (p : Pacman) :
    p.Bounces ≤ (p.Bounce.1).Bounces := by
  unfold Pacman.Bounce
  cases hs : p.IsStopped with
  | true => rw [if_pos rfl]
  | false =>
    rw [if_neg (by simp)]
    dsimp only
    split_ifs <;> simp

theorem pacman_stop_isStopped (p : Pacman) : (p.Stop.1).IsStopped = true := by
  unfold Pacman.Stop
  cases hs : p.IsStopped with
  | true => rw [if_neg (by simp)]; exact hs
  | false => rw [if_pos (by simp)]

theorem pacman_stop_bounces (p : Pacman) : (p.Stop.1).Bounces = p.Bounces := by
  unfold Pacman.Stop
  cases hs : p.IsStopped with
  | true => rw [if_neg (by simp)]
  | false => rw [if_pos (by simp)]

theorem applyOp_bounces_le (p : Pacman) (o : PacOp) :
    p.Bounces ≤ (applyOp p o).Bounces := by
  cases o with
  | update dt w h => exact pacman_update_bounces_le p dt w h
  | bounce => exact pacman_bounce_bounces_le p
  | stop => rw [applyOp, pacman_stop_bounces]

theorem applyOp_isStopped (p : Pacman) (o : PacOp) (h : p.IsStopped = true) :
    (applyOp p o).IsStopped = true := by
  cases o with
  | update dt w hh => rw [applyOp, pacman_update_isStopped]; exact h
  | bounce => rw [applyOp, pacman_bounce_isStopped]; exact h
  | stop => exact pacman_stop_isStopped p

theorem applyOps_bounces_le (p : Pacman) (ops : List PacOp) :
    p.Bounces ≤ (applyOps p ops).Bounces := by
  induction ops generalizing p with
  | nil => exact le_refl _
  | cons o os ih => exact le_trans (applyOp_bounces_le p o) (ih (applyOp p o))

theorem applyOps_isStopped (p : Pacman) (ops : List PacOp)
    (h : p.IsStopped = true) : (applyOps p ops).IsStopped = true := by
  induction ops generalizing p with
  | nil => exact h
  | cons o os ih => exact ih (applyOp p o) (applyOp_isStopped p o h)

/-! ### Lemmas about the tick when every entity is already stopped -/

theorem collideRow_stopped (n : Nat) (ps : List Pacman) (cnt : Int) (i : Nat)
    (h : ∀ p ∈ ps, p.IsStopped = true) : collideRow n ps cnt i = (ps, cnt) := by
  unfold collideRow
  cases hi : ps[i]? with
  | none => rfl
  | some p1 =>
    have hp1 : p1.IsStopped = true := h p1 (List.getElem?_mem hi)
    dsimp only
    rw [if_pos hp1]

theorem foldl_collideRow_stopped (n : Nat) (L : List Nat) (ps : List Pacman)
    (cnt : Int) (h : ∀ p ∈ ps, p.IsStopped = true) :
    L.foldl (fun st i => collideRow n st.1 st.2 i) (ps, cnt) = (ps, cnt) := by
  induction L with
  | nil => rfl
  | cons i is ih =>
    rw [List.foldl_cons]
    show is.foldl _ (collideRow n ps cnt i) = _
    rw [collideRow_stopped n ps cnt i h]
    exact ih

theorem collisionPhase_stopped (ps : List Pacman)
    (h : ∀ p ∈ ps, p.IsStopped = true) : collisionPhase ps = (ps, 0) := by
  unfold collisionPhase
  exact foldl_collideRow_stopped ps.length _ ps 0 h

theorem foldl_snd_zero (l : List Pacman) (acc : Int) :
    (l.map (fun p => (p, (0 : Int)))).foldl (fun a pr => a + pr.2) acc = acc := by
  induction l generalizing acc with
  | nil => rfl
  | cons p ps ih =>
    rw [List.map_cons, List.foldl_cons]
    show (ps.map _).foldl _ (acc + 0) = acc
    rw [add_zero]
    exact ih acc

theorem game_update_all_stopped_eq (g : Game) (dt : Rat)
    (hplay : g.CurrentState = StatePlaying)
    (hlev : ¬ g.Level < 0)
    (hstop : ∀ p ∈ g.Pacmans, p.IsStopped = true) :
    g.Update dt =
      (if (AddScore g.HighScores { Name := "", Score := g.TotalBounces }).2 then
        { g with CurrentState := StateEnteringHighScore, isNewHighScore := true,
                 playerNameInput := [] }
      else
        { g with CurrentState := StateGameOver, isNewHighScore := false }) := by
  have hstep : g.Pacmans.map (fun p => p.Update dt g.ScreenWidth g.ScreenHeight)
      = g.Pacmans.map (fun p => (p, (0 : Int))) :=
    List.map_congr_left fun p hp => pacman_update_of_stopped p dt _ _ (hstop p hp)
  have hps1 : (g.Pacmans.map (fun p => (p, (0 : Int)))).map Prod.fst = g.Pacmans := by
    rw [List.map_map]
    have hcomp : (Prod.fst ∘ fun p : Pacman => (p, (0 : Int))) = id := rfl
    rw [hcomp, List.map_id]
  have hall : g.Pacmans.all (fun p => p.IsStopped) = true :=
    List.all_eq_true.mpr hstop
  unfold Game.Update
  rw [if_neg (by simp [hplay]), if_neg hlev]
  simp only [hstep, hps1, foldl_snd_zero, hall, collisionPhase_stopped g.Pacmans hstop,
    if_true, add_zero]
  cases hb : (AddScore g.HighScores { Name := "", Score := g.TotalBounces }).2 <;> rfl

/-! ### The claims -/

/-- C2 counterexample: on a full board that is not sorted ascending (score 1
precedes score 0) and a candidate tying the current maximum, AddScore returns
the board unchanged, so its result is not sorted ascending — refuting the
claim for arbitrary (unsorted) input lists. -/
theorem claim_C2_counterexample :
    (AddScore exUnsortedBoard ⟨"k", 9⟩).1 = exUnsortedBoard ∧
    ¬ (AddScore exUnsortedBoard ⟨"k", 9⟩).1.Sorted scoreLE := by
  constructor
  · decide
  · decide

/-- C2 (amended): for every ascending-sorted score list of length at most 10
and every candidate, AddScore returns a list that is sorted ascending and of
length at most 10; and when the input is full and the candidate's score is ≥
every stored score (i.e. ≥ the maximum), the call returns the input unchanged
with `false`.  (The claim's sortedness guarantee needs the input sorted: a
rejected candidate returns the input list as-is.) -/
theorem claim_C2 (l : List Score) (c : Score)
    (hsort : l.Sorted scoreLE) (h10 : l.length ≤ MaxHighScores) :
    (AddScore l c).1.Sorted scoreLE ∧
    (AddScore l c).1.length ≤ MaxHighScores ∧
    (l.length = MaxHighScores → (∀ s ∈ l, s.Score ≤ c.Score) →
      AddScore l c = (l, false)) :=
  ⟨addScore_fst_sorted l c hsort, addScore_fst_length l c h10,
   fun hfull hweak => addScore_full_unchanged l c hfull hweak⟩

/-- Witness for C2 at the full all-zero board and a worse candidate. -/
theorem claim_C2_witness :
    exZeroBoard.Sorted scoreLE ∧ exZeroBoard.length ≤ MaxHighScores ∧
    (AddScore exZeroBoard ⟨"k", 5⟩).1.Sorted scoreLE ∧
    AddScore exZeroBoard ⟨"k", 5⟩ = (exZeroBoard, false) := by
  have hsort : exZeroBoard.Sorted scoreLE := by decide
  have h10 : exZeroBoard.length ≤ MaxHighScores := by decide
  have h := claim_C2 exZeroBoard ⟨"k", 5⟩ hsort h10
  exact ⟨hsort, h10, h.1, h.2.2 (by decide) (by decide)⟩

/-- C3: when a Playing-state tick with a loaded level ends with every entity
stopped, the tick leaves the stored HighScores and TotalBounces untouched,
evaluates via AddScore whether the candidate {Name := "", Score :=
TotalBounces} would be retained, and transitions to EnteringHighScore with a
cleared name buffer when it would, and to GameOver otherwise. -/
theorem claim_C3 (g : Game) (dt : Rat)
    (hplay : g.CurrentState = StatePlaying)
    (hlev : ¬ g.Level < 0)
    (hstop : ∀ p ∈ g.Pacmans, p.IsStopped = true) :
    (g.Update dt).HighScores = g.HighScores ∧
    (g.Update dt).TotalBounces = g.TotalBounces ∧
    ((AddScore g.HighScores { Name := "", Score := g.TotalBounces }).2 = true →
      (g.Update dt).CurrentState = StateEnteringHighScore ∧
      (g.Update dt).playerNameInput = []) ∧
    ((AddScore g.HighScores { Name := "", Score := g.TotalBounces }).2 = false →
      (g.Update dt).CurrentState = StateGameOver) := by
  rw [game_update_all_stopped_eq g dt hplay hlev hstop]
  cases hb : (AddScore g.HighScores { Name := "", Score := g.TotalBounces }).2 <;>
    simp [hb]

/-- Witness for C3: a playing game whose single entity is stopped and whose
empty board retains the candidate, so the tick enters name entry. -/
theorem claim_C3_witness :
    exFinishedGame.CurrentState = StatePlaying ∧
    (∀ p ∈ exFinishedGame.Pacmans, p.IsStopped = true) ∧
    (exFinishedGame.Update 1).HighScores = exFinishedGame.HighScores ∧
    (exFinishedGame.Update 1).CurrentState = StateEnteringHighScore := by
  have hstop : ∀ p ∈ exFinishedGame.Pacmans, p.IsStopped = true := by decide
  have h := claim_C3 exFinishedGame 1 rfl (by decide) hstop
  exact ⟨rfl, hstop, h.1, (h.2.2.1 (by decide)).1⟩

/-- C5: a failing injected loader leaves every Simulation field untouched and
surfaces the failure, for both RequestLoadLevel and RequestLoadSavedGame;
after a successful load, a failing high-score load is not an error and yields
an empty high-score list. -/
theorem claim_C5 (g loaded : Game) (cp sp e e2 : String)
    (hs : Option (Except String (List Score))) :
    (g.RequestLoadLevel cp (.error e) hs).1 = g ∧
    (∃ msg, (g.RequestLoadLevel cp (.error e) hs).2 = .error msg) ∧
    (g.RequestLoadSavedGame sp (.error e) hs).1 = g ∧
    (∃ msg, (g.RequestLoadSavedGame sp (.error e) hs).2 = .error msg) ∧
    (g.RequestLoadLevel cp (.ok loaded) (some (.error e2))).1.HighScores = [] ∧
    (g.RequestLoadLevel cp (.ok loaded) (some (.error e2))).2 = .ok () ∧
    (g.RequestLoadSavedGame sp (.ok loaded) (some (.error e2))).1.HighScores = [] ∧
    (g.RequestLoadSavedGame sp (.ok loaded) (some (.error e2))).2 = .ok () :=
  ⟨rfl, ⟨_, rfl⟩, rfl, ⟨_, rfl⟩, rfl, rfl, rfl, rfl⟩

/-- C6: within scoreboard capacity, when AddScore decides to insert, the
returned list is exactly append-candidate, stable-sort ascending by score,
truncate to 10: the sorted list is a permutation of the appended input whose
per-score filters are preserved — in particular every existing entry tying
the candidate's score precedes the candidate.  (Go's sort.Sort runs plain
insertion sort, which is stable, on every slice of fewer than 13 elements, so
on every slice AddScore sorts while the board respects its capacity.) -/
theorem claim_C6 (l : List Score) (c : Score)
    (h10 : l.length ≤ MaxHighScores) (hadd : shouldAddScore l c = true) :
    (AddScore l c).1 = (sortScores (l ++ [c])).take MaxHighScores ∧
    (sortScores (l ++ [c])).Sorted scoreLE ∧
    List.Perm (sortScores (l ++ [c])) (l ++ [c]) ∧
    (∀ k : Int, (sortScores (l ++ [c])).filter (fun s => decide (s.Score = k)) =
      (l ++ [c]).filter (fun s => decide (s.Score = k))) ∧
    (sortScores (l ++ [c])).filter (fun s => decide (s.Score = c.Score)) =
      l.filter (fun s => decide (s.Score = c.Score)) ++ [c] := by
  refine ⟨?_, sortScores_sorted _, sortScores_perm _,
    fun k => sortScores_filter _ k, ?_⟩
  · rw [addScore_fst, if_pos hadd]
    split
    · rfl
    case isFalse hlen => rw [List.take_of_length_le (le_of_not_lt hlen)]
  · rw [sortScores_filter, List.filter_append]
    simp

/-- Witness for C6: inserting a score that ties two existing entries places
the candidate after both of them. -/
theorem claim_C6_witness :
    exSortedBoard.length ≤ MaxHighScores ∧
    shouldAddScore exSortedBoard ⟨"z", 3⟩ = true ∧
    (AddScore exSortedBoard ⟨"z", 3⟩).1 =
      (sortScores (exSortedBoard ++ [⟨"z", 3⟩])).take MaxHighScores ∧
    (sortScores (exSortedBoard ++ [⟨"z", 3⟩])).filter
        (fun s => decide (s.Score = (3 : Int))) =
      exSortedBoard.filter (fun s => decide (s.Score = (3 : Int))) ++ [⟨"z", 3⟩] := by
  have h := claim_C6 exSortedBoard ⟨"z", 3⟩ (by decide) (by decide)
  exact ⟨by decide, by decide, h.1, h.2.2.2.2⟩

/-- C9: over any sequence of Update, Bounce and Stop operations an entity's
bounce counter is non-decreasing and its stopped flag, once true, stays
true. -/
theorem claim_C9 (p : Pacman) (ops : List PacOp) :
    p.Bounces ≤ (applyOps p ops).Bounces ∧
    (p.IsStopped = true → (applyOps p ops).IsStopped = true) :=
  ⟨applyOps_bounces_le p ops, applyOps_isStopped p ops⟩

/-- Witness for C9 on a stopped entity and a three-operation run. -/
theorem claim_C9_witness :
    exStopped.Bounces ≤
      (applyOps exStopped [.update 1 640 480, .bounce, .stop]).Bounces ∧
    (applyOps exStopped [.update 1 640 480, .bounce, .stop]).IsStopped = true := by
  have h := claim_C9 exStopped [.update 1 640 480, .bounce, .stop]
  exact ⟨h.1, h.2 rfl⟩

/-- C10: for boards within capacity the boolean AddScore returns equals
"the board is not full, or some stored score strictly exceeds the candidate's"
(equivalently, the candidate's score is strictly below the maximum), and it
depends only on scores, never on names: candidates differing only in Name get
the same answer — so the read-only check at game over (empty name) agrees
with the mutating insert of HandleEnter (entered name). -/
theorem claim_C10 (l : List Score) (c : Score) (h10 : l.length ≤ MaxHighScores) :
    (AddScore l c).2 =
      (decide (l.length < MaxHighScores) ||
        l.any (fun s => decide (c.Score < s.Score))) ∧
    ∀ c' : Score, c'.Score = c.Score → (AddScore l c').2 = (AddScore l c).2 :=
  addScore_retained_iff l c h10

/-- Witness for C10: the full zero board rejects score 5 whatever the name. -/
theorem claim_C10_witness :
    exZeroBoard.length ≤ MaxHighScores ∧
    (AddScore exZeroBoard ⟨"k", 5⟩).2 = false ∧
    (AddScore exZeroBoard ⟨"anything", 5⟩).2 = (AddScore exZeroBoard ⟨"k", 5⟩).2 := by
  have h := claim_C10 exZeroBoard ⟨"k", 5⟩ (by decide)
  refine ⟨by decide, ?_, h.2 ⟨"anything", 5⟩ rfl⟩
  rw [h.1]
  decide

/-- C4 counterexample: in a name-entry game whose pending score is rejected
(full zero board, score 5), the insert runs but the injected writer is never
invoked — the resulting list is NOT persisted — refuting the claim's
unconditional persistence; the transition to HallOfFame still happens. -/
theorem claim_C4_counterexample :
    (exHopelessGame.HandleEnter).2 = none ∧
    (exHopelessGame.HandleEnter).1.CurrentState = StateHallOfFame := by
  constructor
  · decide
  · decide

/-- C4 (amended): HandleEnter is ignored outside EnteringHighScore; otherwise
the buffer resolves to a display name (the fixed placeholder "Anonymous" when
empty), the Scoreboard insert runs against (name, TotalBounces) and its list
is stored, the injected writer is invoked on that list and the high-score
path exactly when the insert reports the candidate retained (the writer's
result does not feed back into the state, so its failure cannot block the
transition), and the state unconditionally becomes HallOfFame with the name
buffer cleared. -/
theorem claim_C4 (g : Game) :
    (g.CurrentState ≠ StateEnteringHighScore → g.HandleEnter = (g, none)) ∧
    (g.CurrentState = StateEnteringHighScore →
      (g.HandleEnter).1.CurrentState = StateHallOfFame ∧
      (g.HandleEnter).1.playerNameInput = [] ∧
      (g.playerNameInput = [] →
        (if String.mk g.playerNameInput = "" then "Anonymous"
         else String.mk g.playerNameInput) = "Anonymous") ∧
      (g.HandleEnter).1.HighScores =
        (AddScore g.HighScores
          { Name := if String.mk g.playerNameInput = "" then "Anonymous"
                    else String.mk g.playerNameInput,
            Score := g.TotalBounces }).1 ∧
      (g.HandleEnter).2 =
        (if (AddScore g.HighScores
              { Name := if String.mk g.playerNameInput = "" then "Anonymous"
                        else String.mk g.playerNameInput,
                Score := g.TotalBounces }).2 then
          some ((AddScore g.HighScores
              { Name := if String.mk g.playerNameInput = "" then "Anonymous"
                        else String.mk g.playerNameInput,
                Score := g.TotalBounces }).1, g.highScorePath)
        else none)) := by
  constructor
  · intro hstate
    unfold Game.HandleEnter
    rw [if_pos hstate]
  · intro hstate
    unfold Game.HandleEnter
    rw [if_neg (by simp [hstate])]
    refine ⟨rfl, rfl, ?_, rfl, rfl⟩
    intro hemp
    simp [hemp, String.ext_iff]

/-- Witness for C4: an empty buffer on an empty board stores "Anonymous",
persists the singleton list, and lands in HallOfFame. -/
theorem claim_C4_witness :
    exAnonymousGame.CurrentState = StateEnteringHighScore ∧
    (exAnonymousGame.HandleEnter).1.CurrentState = StateHallOfFame ∧
    (exAnonymousGame.HandleEnter).1.HighScores = [⟨"Anonymous", 2⟩] ∧
    (exAnonymousGame.HandleEnter).2 = some ([⟨"Anonymous", 2⟩], "hs.gob") := by
  have h := (claim_C4 exAnonymousGame).2 rfl
  refine ⟨rfl, h.1, ?_, ?_⟩
  · rw [h.2.2.2.1]
    decide
  · rw [h.2.2.2.2]
    decide

/-- C7 counterexample: a 16-character chunk entering an empty name buffer in
EnteringHighScore is appended whole, leaving a 16-character buffer — the
15-character cap can be exceeded, refuting the claimed invariant. -/
theorem claim_C7_counterexample :
    (exEmptyEntryGame.HandleTextInput exSixteenChars).playerNameInput.length = 16 := by
  decide

/-- C7 (amended): text input is ignored outside EnteringHighScore; in
EnteringHighScore the whole chunk is appended when the buffer currently holds
fewer than 15 characters and is dropped entirely otherwise — the guard is on
the pre-call length only, so one multi-character chunk can push the buffer
past 15; with chunks of at most one character the buffer never exceeds 15. -/
theorem claim_C7 (g : Game) (chars : List Char) :
    (g.CurrentState ≠ StateEnteringHighScore → g.HandleTextInput chars = g) ∧
    (g.CurrentState = StateEnteringHighScore →
      (g.playerNameInput.length < 15 →
        (g.HandleTextInput chars).playerNameInput = g.playerNameInput ++ chars) ∧
      (¬ g.playerNameInput.length < 15 → g.HandleTextInput chars = g)) ∧
    (g.playerNameInput.length ≤ 15 → chars.length ≤ 1 →
      (g.HandleTextInput chars).playerNameInput.length ≤ 15) := by
  refine ⟨?_, ?_, ?_⟩
  · intro hstate
    unfold Game.HandleTextInput
    rw [if_pos hstate]
  · intro hstate
    unfold Game.HandleTextInput
    rw [if_neg (by simp [hstate])]
    constructor
    · intro hlt
      rw [if_pos hlt]
    · intro hge
      rw [if_neg hge]
  · intro hlen hone
    unfold Game.HandleTextInput
    by_cases hstate : g.CurrentState ≠ StateEnteringHighScore
    · rw [if_pos hstate]
      exact hlen
    · rw [if_neg hstate]
      by_cases hlt : g.playerNameInput.length < 15
      · rw [if_pos hlt]
        simp only [List.length_append]
        omega
      · rw [if_neg hlt]
        exact hlen

/-- Witness for C7: a single character typed into an empty buffer. -/
theorem claim_C7_witness :
    exEmptyEntryGame.CurrentState = StateEnteringHighScore ∧
    (exEmptyEntryGame.HandleTextInput ['A']).playerNameInput =
      exEmptyEntryGame.playerNameInput ++ ['A'] ∧
    (exEmptyEntryGame.HandleTextInput ['A']).playerNameInput.length ≤ 15 := by
  have h := claim_C7 exEmptyEntryGame ['A']
  exact ⟨rfl, (h.2.1 rfl).1 (by decide), h.2.2 (by decide) (by decide)⟩

/-- C8: evaluation of HandleBackspace at the failing inputs.  The Go guard
reads `CurrentState != StateEnteringHighScore && len(...) > 0` — the negation
of the documented "during high score entry" — so in EnteringHighScore a
two-character buffer stays untouched, while the same buffer on the GameOver
screen loses its last character. -/
theorem claim_C8_code_eval :
    (exEnteringGame.HandleBackspace).playerNameInput = ['A', 'B'] ∧
    (exGameOverGame.HandleBackspace).playerNameInput = ['A'] := by
  constructor
  · decide
  · decide

/-- C1: one Update call with dt ≥ 0 on a non-stopped entity produces at most
one bounce: the step return value is always 0 or 1; on the axis selected by
Direction, when the moved position pushes the circular extent past the
boundary on the side matching the direction sign, the centre is clamped to
boundary ∓ radius, the sign flips, Bounces grows by exactly 1 and the call
returns 1; otherwise position moves by speed·dt·sign, nothing else changes
and the call returns 0.  A stopped entity is returned unchanged with 0. -/
theorem claim_C1 (p : Pacman) (dt w h : Rat) (hdt : 0 ≤ dt) :
    (p.IsStopped = true → p.Update dt w h = (p, 0)) ∧
    ((p.Update dt w h).2 = 0 ∨ (p.Update dt w h).2 = 1) ∧
    (p.IsStopped = false → p.Direction = DirHorizontal →
      ((p.PosX + p.Speed * dt * (p.SubDirection : Rat) - p.Radius < 0 ∧
          p.SubDirection = -1 →
        (p.Update dt w h).1.PosX = p.Radius ∧
        (p.Update dt w h).1.SubDirection = 1 ∧
        (p.Update dt w h).1.Bounces = p.Bounces + 1 ∧
        (p.Update dt w h).2 = 1) ∧
      (¬ (p.PosX + p.Speed * dt * (p.SubDirection : Rat) - p.Radius < 0 ∧
          p.SubDirection = -1) →
        (w < p.PosX + p.Speed * dt * (p.SubDirection : Rat) + p.Radius ∧
          p.SubDirection = 1) →
        (p.Update dt w h).1.PosX = w - p.Radius ∧
        (p.Update dt w h).1.SubDirection = -1 ∧
        (p.Update dt w h).1.Bounces = p.Bounces + 1 ∧
        (p.Update dt w h).2 = 1) ∧
      (¬ (p.PosX + p.Speed * dt * (p.SubDirection : Rat) - p.Radius < 0 ∧
          p.SubDirection = -1) →
        ¬ (w < p.PosX + p.Speed * dt * (p.SubDirection : Rat) + p.Radius ∧
          p.SubDirection = 1) →
        (p.Update dt w h).1.PosX = p.PosX + p.Speed * dt * (p.SubDirection : Rat) ∧
        (p.Update dt w h).1.SubDirection = p.SubDirection ∧
        (p.Update dt w h).1.Bounces = p.Bounces ∧
        (p.Update dt w h).2 = 0))) ∧
    (p.IsStopped = false → p.Direction ≠ DirHorizontal →
      ((p.PosY + p.Speed * dt * (p.SubDirection : Rat) - p.Radius < 0 ∧
          p.SubDirection = -1 →
        (p.Update dt w h).1.PosY = p.Radius ∧
        (p.Update dt w h).1.SubDirection = 1 ∧
        (p.Update dt w h).1.Bounces = p.Bounces + 1 ∧
        (p.Update dt w h).2 = 1) ∧
      (¬ (p.PosY + p.Speed * dt * (p.SubDirection : Rat) - p.Radius < 0 ∧
          p.SubDirection = -1) →
        (h < p.PosY + p.Speed * dt * (p.SubDirection : Rat) + p.Radius ∧
          p.SubDirection = 1) →
        (p.Update dt w h).1.PosY = h - p.Radius ∧
        (p.Update dt w h).1.SubDirection = -1 ∧
        (p.Update dt w h).1.Bounces = p.Bounces + 1 ∧
        (p.Update dt w h).2 = 1) ∧
      (¬ (p.PosY + p.Speed * dt * (p.SubDirection : Rat) - p.Radius < 0 ∧
          p.SubDirection = -1) →
        ¬ (h < p.PosY + p.Speed * dt * (p.SubDirection : Rat) + p.Radius ∧
          p.SubDirection = 1) →
        (p.Update dt w h).1.PosY = p.PosY + p.Speed * dt * (p.SubDirection : Rat) ∧
        (p.Update dt w h).1.SubDirection = p.SubDirection ∧
        (p.Update dt w h).1.Bounces = p.Bounces ∧
        (p.Update dt w h).2 = 0))) := by
  refine ⟨fun hs => pacman_update_of_stopped p dt w h hs, ?_, ?_, ?_⟩
  · unfold Pacman.Update
    cases hs : p.IsStopped with
    | true => rw [if_pos rfl]; exact Or.inl rfl
    | false =>
      rw [if_neg (by simp)]
      dsimp only
      split_ifs <;> simp <;> omega
  · intro hs hdir
    unfold Pacman.Update
    rw [if_neg (by simp [hs])]
    dsimp only
    rw [if_pos hdir]
    refine ⟨?_, ?_, ?_⟩
    · intro hc
      rw [if_pos hc]
      refine ⟨rfl, ?_, rfl, ?_⟩
      · simp [hc.2]
      · simp
    · intro hnc hc2
      rw [if_neg hnc, if_pos hc2]
      refine ⟨rfl, ?_, rfl, ?_⟩
      · simp [hc2.2]
      · simp
    · intro hnc hnc2
      rw [if_neg hnc, if_neg hnc2]
      exact ⟨rfl, rfl, rfl, by simp⟩
  · intro hs hdir
    unfold Pacman.Update
    rw [if_neg (by simp [hs])]
    dsimp only
    rw [if_neg hdir]
    refine ⟨?_, ?_, ?_⟩
    · intro hc
      rw [if_pos hc]
      refine ⟨rfl, ?_, rfl, ?_⟩
      · simp [hc.2]
      · simp
    · intro hnc hc2
      rw [if_neg hnc, if_pos hc2]
      refine ⟨rfl, ?_, rfl, ?_⟩
      · simp [hc2.2]
      · simp
    · intro hnc hnc2
      rw [if_neg hnc, if_neg hnc2]
      exact ⟨rfl, rfl, rfl, by simp⟩

/-- Witness for C1: the runner one step from the right wall bounces once. -/
theorem claim_C1_witness :
    (0 : Rat) ≤ 1 ∧
    (exRunner.Update 1 640 480).1.PosX = 640 - exRunner.Radius ∧
    (exRunner.Update 1 640 480).1.SubDirection = -1 ∧
    (exRunner.Update 1 640 480).1.Bounces = exRunner.Bounces + 1 ∧
    (exRunner.Update 1 640 480).2 = 1 := by
  have hc1 := claim_C1 exRunner 1 640 480 zero_le_one
  have hb := (hc1.2.2.1 rfl rfl).2.1 (by norm_num [exRunner]) (by norm_num [exRunner])
  exact ⟨zero_le_one, hb.1, hb.2.1, hb.2.2.1, hb.2.2.2⟩

end PacGame
